import Mathlib

/-
Shallow embedding of src/src/average_key_brightnesses.rs (JokNavi/Char-art).

Machine integers are modelled as Nat/Int with explicit reductions modulo
2^32 where the Rust code performs an `as u32` cast or a wrapping u32
multiplication.  Grayscale pixels (u8) are `Fin 256`.  Code that can panic
(`panic!`, division by zero, `.unwrap()` after `try_into`) returns
`Option`/`Except`.  The external font rasterizer (rusttype / imageproc
`text_size` and `draw_text_mut`) is a parameter: a record of a measuring
function and a drawing function; `draw_text_mut` mutates the pixel buffer
in place and therefore cannot change the canvas dimensions, which the
record states as two propositional fields.
-/

/-- Reinterpretation of an `i32` value as `u32` (the `as u32` cast):
reduction modulo 2^32, landing in Nat. -/
def toU32 (i : Int) : Nat := (i % 4294967296).toNat

/-- Wrapping of an integer into the `i32` range, modelling release-mode
`i32` multiplication overflow in `y as i32 * chunk_row_height`. -/
def i32wrap (v : Int) : Int := (v + 2147483648) % 4294967296 - 2147483648

/-- Model of `image::GrayImage`: a width, a height and a pixel function
returning the `u8` luma of each coordinate. -/
structure GrayImage where
  width : Nat
  height : Nat
  pix : Nat → Nat → Fin 256

/-- Model of `GrayImage::new(w, h)`: a w × h canvas with every pixel 0. -/
def GrayImage.new (w h : Nat) : GrayImage := ⟨w, h, fun _ _ => 0⟩

/-- Model of `image.len()`: the length of the underlying sample buffer,
which for `Luma<u8>` is width * height. -/
def GrayImage.len (img : GrayImage) : Nat := img.width * img.height

/-- Model of the `image.pixels()` iterator: all pixel values in row-major
order, as a flat list of Nat (the `pixel.0[0] as usize` of the source). -/
def GrayImage.pixelList (img : GrayImage) : List Nat :=
  (List.range img.height).flatMap
    (fun y => (List.range img.width).map (fun x => (img.pix x y).val))

/-- Model of `KeyBrightnesses::average_brightness`: sum of all pixel values
divided (truncating) by `image.len()`.  `none` models a panic: the division
by zero when the canvas is empty, or the `.unwrap()` after `try_into`
failing when the quotient exceeds `u8::MAX`. -/
def averageBrightness (img : GrayImage) : Option Nat :=
  if img.len = 0 then none
  else if img.pixelList.sum / img.len ≤ 255 then
    some (img.pixelList.sum / img.len)
  else none

/-- The external font rasterization capability (a rusttype `Font` plus
`Scale` together with imageproc's `text_size` and `draw_text_mut`).
`textSize` returns the (i32, i32) rendered size of a string; `drawText`
draws a string onto a canvas at an (i32, i32) origin with a given color.
Drawing mutates pixels in place, so it preserves the canvas dimensions. -/
structure FontRasterizer where
  textSize : String → Int × Int
  drawText : GrayImage → Fin 256 → Int → Int → String → GrayImage
  drawText_width : ∀ img c x y s, (drawText img c x y s).width = img.width
  drawText_height : ∀ img c x y s, (drawText img c x y s).height = img.height

/-- `KeyBrightnesses::KEY_REPETITION = 3`. -/
def KEY_REPETITION : Nat := 3

/-- `KeyBrightnesses::KEY_WIDTH_MULTIPLIER = 2`. -/
def KEY_WIDTH_MULTIPLIER : Nat := 2

/-- `KeyBrightnesses::CHUNK_WIDTH_KEY_AMOUNT = (3u16 * 2u16) as usize`
(no overflow occurs in the u16 product). -/
def CHUNK_WIDTH_KEY_AMOUNT : Nat := KEY_REPETITION * KEY_WIDTH_MULTIPLIER

/-- `KeyBrightnesses::KEY_COLOR = Luma([255])`. -/
def KEY_COLOR : Fin 256 := 255

/-- The per-key tile string `key.to_string().repeat(CHUNK_WIDTH_KEY_AMOUNT)`. -/
def keyChunkRow (key : Char) : String :=
  String.mk (List.replicate CHUNK_WIDTH_KEY_AMOUNT key)

/-- The canvas built for one key by the loop body of
`keys_average_brightnesses`: measure the tile string, allocate
`GrayImage::new(w as u32, h as u32 * KEY_REPETITION as u32)`, then draw the
tile string at x = 0, y = `y as i32 * chunk_row_height` for y = 0, 1, 2. -/
def keyChunkImage (r : FontRasterizer) (key : Char) : GrayImage :=
  let wh := r.textSize (keyChunkRow key)
  let base := GrayImage.new (toU32 wh.1) (toU32 wh.2 * KEY_REPETITION % 4294967296)
  (List.range KEY_REPETITION).foldl
    (fun img (y : Nat) =>
      r.drawText img KEY_COLOR 0 (i32wrap ((y : Int) * wh.2)) (keyChunkRow key))
    base

/-- One iteration of the loop of `keys_average_brightnesses`: the average
brightness of the canvas built for one key. -/
def keyAverageBrightness (r : FontRasterizer) (key : Char) : Option Nat :=
  averageBrightness (keyChunkImage r key)

/-- Model of `KeyBrightnesses::keys_average_brightnesses` on the character
list of `keys` (the `keys.chars()` iterator): push the average brightness
of each key's canvas in order; a panic in any iteration aborts the whole
computation. -/
def keysAverageBrightnessesList (r : FontRasterizer) : List Char → Option (List Nat)
  | [] => some []
  | k :: ks =>
    match keyAverageBrightness r k, keysAverageBrightnessesList r ks with
    | some b, some bs => some (b :: bs)
    | _, _ => none

/-- The ways table construction can abort. -/
inductive BuildError where
  /-- The `panic!("Keys cannot contain spaces.")` guard in `new`. -/
  | invalidCharacterSet
  /-- A panic inside `average_brightness` (division by zero on an empty
  canvas, or the `.unwrap()` after `try_into` failing). -/
  | averagePanic
deriving DecidableEq

/-- The `KeyBrightnesses` struct: the key string and the parallel
brightness vector (u8 values modelled as Nat). -/
structure KeyBrightnesses where
  keys : String
  brightnesses : List Nat
deriving DecidableEq

/-- Model of `KeyBrightnesses::new`: reject any key string containing a
space, otherwise store the keys together with their computed average
brightnesses. -/
def KeyBrightnesses.new (r : FontRasterizer) (keys : String) :
    Except BuildError KeyBrightnesses :=
  if (' ' ∈ keys.toList) then Except.error BuildError.invalidCharacterSet
  else
    match keysAverageBrightnessesList r keys.toList with
    | some bs => Except.ok ⟨keys, bs⟩
    | none => Except.error BuildError.averagePanic

/-- The constant `DEFAULT_PRINTABLE_CHARACTERS`: the 94 printable ASCII
characters 0x21–0x7E in order, followed by a space. -/
def DEFAULT_PRINTABLE_CHARACTERS : String :=
  "!\"#$%&'()*+,-./0123456789:;<=>?@ABCDEFGHIJKLMNOPQRSTUVWXYZ[\\]^_`abcdefghijklmnopqrstuvwxyz\x7b|\x7d~ "

/-- The constant `DEFAULT_BRIGHTNESSES`: 95 precomputed brightness values. -/
def DEFAULT_BRIGHTNESSES : List Nat :=
  [22, 25, 59, 55, 48, 65, 13, 27, 28, 41, 34, 8, 15, 5, 23, 64, 33, 50, 50, 53, 53, 53, 38, 61,
   55, 11, 13, 29, 33, 29, 34, 61, 53, 71, 46, 62, 56, 46, 57, 58, 48, 36, 60, 36, 75, 73, 56, 53,
   57, 64, 55, 38, 52, 48, 79, 54, 41, 51, 35, 23, 35, 32, 12, 10, 49, 56, 37, 56, 47, 43, 54, 52,
   39, 34, 53, 44, 61, 44, 43, 47, 48, 28, 42, 37, 42, 34, 52, 40, 38, 43, 32, 23, 32, 24, 0]

/-- Model of `impl Default for KeyBrightnesses`: the precomputed table,
built with no rasterization. -/
def KeyBrightnesses.default : KeyBrightnesses :=
  ⟨DEFAULT_PRINTABLE_CHARACTERS, DEFAULT_BRIGHTNESSES⟩

/-- Model of `From<&KeyBrightnesses> for Vec<(u8, char)>` (`as_tuple`):
zip the brightness vector with the characters of the key string. -/
def KeyBrightnesses.as_tuple (kb : KeyBrightnesses) : List (Nat × Char) :=
  (kb.brightnesses.zip kb.keys.toList).map (fun bk => (bk.1, bk.2))

/-- One `HashMap::insert` step: the map with key `p.1` now bound to `p.2`,
every other key unchanged (later insertions overwrite earlier ones). -/
def hashMapInsert (m : Nat → Option Char) (p : Nat × Char) : Nat → Option Char :=
  fun b => if b = p.1 then some p.2 else m b

/-- Model of `From<&KeyBrightnesses> for HashMap<u8, char>` (`as_hash_map`):
`HashMap::from_iter` over the tuple view, i.e. sequential insertion into
the empty map, viewed as the resulting lookup function. -/
def KeyBrightnesses.as_hash_map (kb : KeyBrightnesses) : Nat → Option Char :=
  kb.as_tuple.foldl hashMapInsert (fun _ => none)

/-- A concrete rasterizer used to instantiate universally quantified
theorems: every string measures 2 × 1 pixels and drawing is a no-op. -/
def trivialRast : FontRasterizer where
  textSize := fun _ => (2, 1)
  drawText := fun img _ _ _ _ => img
  drawText_width := fun _ _ _ _ _ => rfl
  drawText_height := fun _ _ _ _ _ => rfl

/-- The pixel iterator visits exactly `image.len()` samples. -/
theorem GrayImage.pixelList_length (img : GrayImage) :
    img.pixelList.length = img.len := by
  simp [GrayImage.pixelList, GrayImage.len, List.length_flatMap, Function.comp_def,
    List.map_const']
  simp [List.sum_replicate, Nat.mul_comm]

/-- Every sample the pixel iterator yields is a u8 value, hence at most 255. -/
theorem GrayImage.pixelList_le (img : GrayImage) :
    ∀ v ∈ img.pixelList, v ≤ 255 := by
  intro v hv
  simp only [GrayImage.pixelList, List.mem_flatMap, List.mem_map] at hv
  obtain ⟨y, -, x, -, rfl⟩ := hv
  exact Nat.le_of_lt_succ (img.pix x y).isLt

/-- The pixel sum is bounded by 255 times the sample count. -/
theorem GrayImage.pixelList_sum_le (img : GrayImage) :
    img.pixelList.sum ≤ img.len * 255 := by
  have h := List.sum_le_card_nsmul img.pixelList 255 img.pixelList_le
  simpa [img.pixelList_length, Nat.mul_comm] using h

/-- The truncating average of u8 samples never exceeds 255. -/
theorem GrayImage.avg_le (img : GrayImage) :
    img.pixelList.sum / img.len ≤ 255 :=
  Nat.div_le_of_le_mul img.pixelList_sum_le

/-- C1: on every non-empty grayscale canvas, `average_brightness` returns
exactly the truncating quotient of the pixel sum by the pixel count, and
that quotient lies in [0, 255], so the `.unwrap()` after `try_into` (the
final `none` branch of the model) never fires. -/
theorem average_brightness_floor_div_in_range (img : GrayImage)
    (h : img.len ≠ 0) :
    averageBrightness img = some (img.pixelList.sum / img.len) ∧
    img.pixelList.sum / img.len ≤ 255 := by
  refine ⟨?_, img.avg_le⟩
  rw [averageBrightness, if_neg h, if_pos img.avg_le]

/-- Witness for C1 at the concrete 2 × 2 all-black canvas. -/
theorem average_brightness_floor_div_in_range_witness :
    averageBrightness (GrayImage.new 2 2) =
      some ((GrayImage.new 2 2).pixelList.sum / (GrayImage.new 2 2).len) ∧
    (GrayImage.new 2 2).pixelList.sum / (GrayImage.new 2 2).len ≤ 255 :=
  average_brightness_floor_div_in_range (GrayImage.new 2 2) (by decide)

/-- C3: for every character set containing a space, `KeyBrightnesses::new`
panics with the InvalidCharacterSet rejection before any table is built. -/
theorem new_rejects_space (r : FontRasterizer) (keys : String)
    (h : ' ' ∈ keys.toList) :
    KeyBrightnesses.new r keys = Except.error BuildError.invalidCharacterSet := by
  rw [KeyBrightnesses.new, if_pos h]

/-- Witness for C3 at the concrete key string "a b". -/
theorem new_rejects_space_witness :
    (' ' ∈ "a b".toList) ∧
    KeyBrightnesses.new trivialRast "a b" =
      Except.error BuildError.invalidCharacterSet :=
  ⟨by decide, new_rejects_space trivialRast "a b" (by decide)⟩

/-- C4 counterexample: the key string "aa" contains the duplicate symbol
a and no space, yet `KeyBrightnesses::new` accepts it and produces a
table — construction does not reject duplicate symbols. -/
theorem new_accepts_duplicates_cex :
    KeyBrightnesses.new trivialRast "aa" = Except.ok ⟨"aa", [0, 0]⟩ := by
  rfl

/-- C4 amended: `KeyBrightnesses::new` raises InvalidCharacterSet exactly
when the key string contains a space; duplicate symbols alone are never
rejected. -/
theorem new_invalid_iff_space (r : FontRasterizer) (keys : String) :
    KeyBrightnesses.new r keys = Except.error BuildError.invalidCharacterSet ↔
    ' ' ∈ keys.toList := by
  constructor
  · intro h
    by_contra hsp
    rw [KeyBrightnesses.new, if_neg hsp] at h
    cases hkb : keysAverageBrightnessesList r keys.toList <;>
      rw [hkb] at h <;> simp_all
  · intro h
    rw [KeyBrightnesses.new, if_pos h]

/-- Successful builder runs produce one brightness per key, in key order. -/
theorem keysAverageBrightnessesList_spec (r : FontRasterizer) :
    ∀ (l : List Char) (bs : List Nat),
      keysAverageBrightnessesList r l = some bs →
      bs.length = l.length ∧
      ∀ i : Nat, bs[i]? = (l[i]?).bind (keyAverageBrightness r) := by
  intro l
  induction l with
  | nil =>
    intro bs h
    simp only [keysAverageBrightnessesList, Option.some.injEq] at h
    subst h
    simp
  | cons k ks ih =>
    intro bs h
    cases hb : keyAverageBrightness r k with
    | none => simp [keysAverageBrightnessesList, hb] at h
    | some b =>
      cases hrec : keysAverageBrightnessesList r ks with
      | none => simp [keysAverageBrightnessesList, hb, hrec] at h
      | some bs2 =>
        simp only [keysAverageBrightnessesList, hb, hrec, Option.some.injEq] at h
        subst h
        obtain ⟨hlen, hidx⟩ := ih bs2 hrec
        refine ⟨by simp [hlen], ?_⟩
        intro i
        cases i with
        | zero => simp [hb]
        | succ n => simpa using hidx n

/-- C5: every table produced by `KeyBrightnesses::new` has as many
brightness entries as key characters, the i-th brightness being the
computed average brightness of the i-th key; and the default table's two
sequences also have equal length. -/
theorem table_parallel_lengths :
    (∀ (r : FontRasterizer) (keys : String) (kb : KeyBrightnesses),
      KeyBrightnesses.new r keys = Except.ok kb →
      kb.keys.toList.length = kb.brightnesses.length ∧
      ∀ i : Nat, kb.brightnesses[i]? =
        (kb.keys.toList[i]?).bind (keyAverageBrightness r)) ∧
    KeyBrightnesses.default.keys.toList.length =
      KeyBrightnesses.default.brightnesses.length := by
  constructor
  · intro r keys kb h
    rw [KeyBrightnesses.new] at h
    by_cases hsp : (' ' ∈ keys.toList)
    · rw [if_pos hsp] at h
      exact absurd h (by simp)
    rw [if_neg hsp] at h
    cases hkb : keysAverageBrightnessesList r keys.toList with
    | none =>
      rw [hkb] at h
      exact absurd h (by simp)
    | some bs =>
      rw [hkb] at h
      injection h with h2
      subst h2
      obtain ⟨hlen, hidx⟩ := keysAverageBrightnessesList_spec r keys.toList bs hkb
      exact ⟨hlen.symm, hidx⟩
  · rfl

/-- Witness for C5 at the concrete key string "ab" and the trivial
rasterizer. -/
theorem table_parallel_lengths_witness :
    (KeyBrightnesses.mk "ab" [0, 0]).keys.toList.length =
      (KeyBrightnesses.mk "ab" [0, 0]).brightnesses.length :=
  (table_parallel_lengths.1 trivialRast "ab" ⟨"ab", [0, 0]⟩ (by rfl)).1

/-- C6: on every table whose sequences have equal length, the ordered-pairs
view has one pair per character and the i-th pair is exactly
(brightnesses[i], i-th character of keys). -/
theorem as_tuple_preserves_order (kb : KeyBrightnesses)
    (hlen : kb.brightnesses.length = kb.keys.toList.length) :
    kb.as_tuple.length = kb.keys.toList.length ∧
    ∀ (i : Nat) (b : Nat) (c : Char),
      kb.brightnesses[i]? = some b → kb.keys.toList[i]? = some c →
      kb.as_tuple[i]? = some (b, c) := by
  constructor
  · simp [KeyBrightnesses.as_tuple, hlen]
  · intro i b c hb hc
    have hz : (kb.brightnesses.zip kb.keys.toList)[i]? = some (b, c) := by
      rw [List.getElem?_zip_eq_some]
      exact ⟨hb, hc⟩
    simpa [KeyBrightnesses.as_tuple] using hz

/-- Witness for C6 at the default table and index 0. -/
theorem as_tuple_preserves_order_witness :
    KeyBrightnesses.default.as_tuple[0]? = some (22, Char.ofNat 33) :=
  (as_tuple_preserves_order KeyBrightnesses.default (by rfl)).2 0 22
    (Char.ofNat 33) (by decide) (by decide)

/-- Sequentially inserting pairs into a map makes the lookup of a key
return the last inserted pair with that key, falling back to the initial
map when no pair carries the key. -/
theorem hashMapInsert_foldl_lookup :
    ∀ (l : List (Nat × Char)) (m : Nat → Option Char) (b : Nat),
      l.foldl hashMapInsert m b =
        (l.reverse.find? (fun p => p.1 == b)).elim (m b) (fun p => some p.2) := by
  intro l
  induction l with
  | nil => intro m b; simp
  | cons p l ih =>
    intro m b
    rw [List.foldl_cons, ih, List.reverse_cons, List.find?_append]
    cases hf : l.reverse.find? (fun p => p.1 == b) with
    | some p2 => simp [hf]
    | none =>
      by_cases hb : p.1 = b
      · simp [hf, hashMapInsert, hb]
      · simp [hf, hashMapInsert, hb, Ne.symm hb]

/-- C7: on every table, the mapping view looks up a brightness to exactly
the character of the last ordered-view pair carrying that brightness, and
its key set is exactly the brightness values of the ordered-pairs view. -/
theorem as_hash_map_last_writer_wins (kb : KeyBrightnesses) (b : Nat) :
    kb.as_hash_map b =
      (kb.as_tuple.reverse.find? (fun p => p.1 == b)).map Prod.snd ∧
    ((kb.as_hash_map b).isSome ↔ b ∈ kb.as_tuple.map Prod.fst) := by
  have h1 : kb.as_hash_map b =
      (kb.as_tuple.reverse.find? (fun p => p.1 == b)).map Prod.snd := by
    rw [KeyBrightnesses.as_hash_map, hashMapInsert_foldl_lookup]
    cases kb.as_tuple.reverse.find? (fun p => p.1 == b) <;> simp
  refine ⟨h1, ?_⟩
  rw [h1, Option.isSome_map', List.find?_isSome]
  constructor
  · rintro ⟨x, hx, hpx⟩
    rw [List.mem_reverse] at hx
    exact List.mem_map.mpr ⟨x, hx, beq_iff_eq.mp hpx⟩
  · intro hm
    obtain ⟨x, hx, hfx⟩ := List.mem_map.mp hm
    exact ⟨x, List.mem_reverse.mpr hx, beq_iff_eq.mpr hfx⟩

/-- C8: the default table pairs exactly the 94 printable ASCII codepoints
0x21–0x7E in order followed by a trailing space (95 characters in all) with
95 precomputed brightness values, each of which lies in [0, 255]. -/
theorem default_table_characters :
    KeyBrightnesses.default.keys.toList =
      ((List.range 94).map (fun i => Char.ofNat (33 + i))) ++ [' '] ∧
    KeyBrightnesses.default.keys.toList.length = 95 ∧
    KeyBrightnesses.default.brightnesses.length = 95 ∧
    ∀ b ∈ KeyBrightnesses.default.brightnesses, b ≤ 255 :=
  ⟨by decide, by decide, by decide, by decide⟩

/-- C10: the default table's key string ends in a space (whose brightness
entry is 0), so `KeyBrightnesses::new` would reject the default table's own
character set with InvalidCharacterSet under every rasterizer. -/
theorem default_table_contains_space :
    (' ' ∈ KeyBrightnesses.default.keys.toList) ∧
    KeyBrightnesses.default.keys.toList.getLast? = some ' ' ∧
    KeyBrightnesses.default.brightnesses.getLast? = some 0 ∧
    ∀ r : FontRasterizer,
      KeyBrightnesses.new r KeyBrightnesses.default.keys =
        Except.error BuildError.invalidCharacterSet := by
  refine ⟨by decide, by decide, by decide, ?_⟩
  intro r
  rw [KeyBrightnesses.new, if_pos (by decide)]

/-- Precondition of C9: the tile string of character `c` measures to a size
that is nonzero in both dimensions (the measurements being i32 values). -/
def measuredSizeNonzero (r : FontRasterizer) (c : Char) : Prop :=
  (r.textSize (keyChunkRow c)).1 ≠ 0 ∧ (r.textSize (keyChunkRow c)).2 ≠ 0 ∧
  -2147483648 ≤ (r.textSize (keyChunkRow c)).1 ∧
  (r.textSize (keyChunkRow c)).1 < 2147483648 ∧
  -2147483648 ≤ (r.textSize (keyChunkRow c)).2 ∧
  (r.textSize (keyChunkRow c)).2 < 2147483648

instance (r : FontRasterizer) (c : Char) : Decidable (measuredSizeNonzero r c) := by
  unfold measuredSizeNonzero
  infer_instance

/-- Drawing repeatedly never changes the canvas width. -/
theorem drawFold_width (r : FontRasterizer) (c : Fin 256) (x : Int)
    (f : Nat → Int) (s : String) :
    ∀ (l : List Nat) (img : GrayImage),
      (l.foldl (fun im y => r.drawText im c x (f y) s) img).width = img.width := by
  intro l
  induction l with
  | nil => intro img; rfl
  | cons y l ih => intro img; rw [List.foldl_cons, ih, r.drawText_width]

/-- Drawing repeatedly never changes the canvas height. -/
theorem drawFold_height (r : FontRasterizer) (c : Fin 256) (x : Int)
    (f : Nat → Int) (s : String) :
    ∀ (l : List Nat) (img : GrayImage),
      (l.foldl (fun im y => r.drawText im c x (f y) s) img).height = img.height := by
  intro l
  induction l with
  | nil => intro img; rfl
  | cons y l ih => intro img; rw [List.foldl_cons, ih, r.drawText_height]

/-- The canvas built for a key keeps the allocated width: the measured
width cast to u32. -/
theorem keyChunkImage_width (r : FontRasterizer) (key : Char) :
    (keyChunkImage r key).width = toU32 (r.textSize (keyChunkRow key)).1 := by
  simp only [keyChunkImage]
  rw [drawFold_width]
  rfl

/-- The canvas built for a key keeps the allocated height: the measured
height cast to u32, times KEY_REPETITION, with u32 wraparound. -/
theorem keyChunkImage_height (r : FontRasterizer) (key : Char) :
    (keyChunkImage r key).height =
      toU32 (r.textSize (keyChunkRow key)).2 * KEY_REPETITION % 4294967296 := by
  simp only [keyChunkImage]
  rw [drawFold_height]
  rfl

/-- Under nonzero measured dimensions the canvas has at least one pixel:
the cast width is nonzero and the wrapped height `h32 * 3 % 2^32` cannot
vanish because 3 is coprime to 2^32. -/
theorem keyChunkImage_len_ne_zero (r : FontRasterizer) (c : Char)
    (h : measuredSizeNonzero r c) : (keyChunkImage r c).len ≠ 0 := by
  obtain ⟨hw0, hh0, hwlo, hwhi, hhlo, hhhi⟩ := h
  rw [GrayImage.len, keyChunkImage_width, keyChunkImage_height]
  have hw : toU32 (r.textSize (keyChunkRow c)).1 ≠ 0 := by rw [toU32]; omega
  have hh3 : 0 < toU32 (r.textSize (keyChunkRow c)).2 := by rw [toU32]; omega
  have hh4 : toU32 (r.textSize (keyChunkRow c)).2 < 4294967296 := by
    rw [toU32]; omega
  have hgtne : toU32 (r.textSize (keyChunkRow c)).2 * KEY_REPETITION
      % 4294967296 ≠ 0 := by
    rw [KEY_REPETITION]
    intro h0
    have hdvd : (4294967296 : Nat) ∣ toU32 (r.textSize (keyChunkRow c)).2 * 3 :=
      Nat.dvd_of_mod_eq_zero h0
    have hcop : Nat.Coprime 4294967296 3 := by norm_num
    have hda := hcop.dvd_of_dvd_mul_right hdvd
    have hle := Nat.le_of_dvd hh3 hda
    clear h0 hdvd
    omega
  exact Nat.mul_ne_zero hw hgtne

/-- A non-empty canvas always has a defined average brightness. -/
theorem averageBrightness_isSome_of_len_ne_zero (img : GrayImage)
    (h : img.len ≠ 0) : (averageBrightness img).isSome = true := by
  rw [averageBrightness, if_neg h, if_pos img.avg_le]
  rfl

/-- When every key's tile measures nonzero, every loop iteration of the
builder produces a brightness. -/
theorem keysAverageBrightnessesList_isSome (r : FontRasterizer) :
    ∀ l : List Char, (∀ c ∈ l, measuredSizeNonzero r c) →
      (keysAverageBrightnessesList r l).isSome = true := by
  intro l
  induction l with
  | nil => intro _; rfl
  | cons k ks ih =>
    intro hall
    have hk : (keyAverageBrightness r k).isSome = true :=
      averageBrightness_isSome_of_len_ne_zero _
        (keyChunkImage_len_ne_zero r k (hall k (by simp)))
    have hks := ih (fun c hc => hall c (by simp [hc]))
    obtain ⟨b, hb⟩ := Option.isSome_iff_exists.mp hk
    obtain ⟨bs, hbs⟩ := Option.isSome_iff_exists.mp hks
    rw [keysAverageBrightnessesList, hb, hbs]
    rfl

/-- C9: `average_brightness` has no division guard, so it panics on the
empty canvas; and when the measured tile size of every character is
nonzero in both dimensions, every division succeeds, making the builder
loop total — under that precondition (and no space in the keys) `new`
returns a table. -/
theorem average_brightness_empty_and_guarded :
    (∀ img : GrayImage, img.len = 0 → averageBrightness img = none) ∧
    (∀ (r : FontRasterizer) (keys : String),
      (∀ c ∈ keys.toList, measuredSizeNonzero r c) →
      (keysAverageBrightnessesList r keys.toList).isSome = true) ∧
    (∀ (r : FontRasterizer) (keys : String),
      (' ' ∉ keys.toList) →
      (∀ c ∈ keys.toList, measuredSizeNonzero r c) →
      (KeyBrightnesses.new r keys).isOk = true) := by
  refine ⟨?_, ?_, ?_⟩
  · intro img h
    rw [averageBrightness, if_pos h]
  · intro r keys h
    exact keysAverageBrightnessesList_isSome r keys.toList h
  · intro r keys hsp h
    rw [KeyBrightnesses.new, if_neg hsp]
    obtain ⟨bs, hbs⟩ :=
      Option.isSome_iff_exists.mp (keysAverageBrightnessesList_isSome r keys.toList h)
    rw [hbs]
    rfl

/-- Witness for C9: the empty canvas panics, and with the trivial
rasterizer (every tile measures 2 × 1) the key string "a" builds fine. -/
theorem average_brightness_empty_and_guarded_witness :
    averageBrightness (GrayImage.new 0 0) = none ∧
    (keysAverageBrightnessesList trivialRast "a".toList).isSome = true ∧
    (KeyBrightnesses.new trivialRast "a").isOk = true :=
  ⟨average_brightness_empty_and_guarded.1 (GrayImage.new 0 0) (by rfl),
   average_brightness_empty_and_guarded.2.1 trivialRast "a" (by decide),
   average_brightness_empty_and_guarded.2.2 trivialRast "a" (by decide) (by decide)⟩

/-- C2: the builder forms for each character the tile string of 6 = 3 × 2
copies of it, measures that string, allocates a canvas of the measured
width and 3 stacked copies of the measured height with background 0, draws
the tile at y-offsets 0, h and 2h in full brightness 255, and averages the
canvas. -/
theorem key_tile_rasterization_structure (r : FontRasterizer) (c : Char)
    (w h : Int)
    (hts : r.textSize (String.mk (List.replicate 6 c)) = (w, h))
    (hw0 : 0 ≤ w) (hwhi : w < 2147483648)
    (hh0 : 0 ≤ h) (hhhi : 2 * h < 2147483648) :
    CHUNK_WIDTH_KEY_AMOUNT = 6 ∧
    keyChunkRow c = String.mk (List.replicate 6 c) ∧
    KEY_COLOR.val = 255 ∧
    (∀ x y, ((GrayImage.new w.toNat (3 * h.toNat)).pix x y).val = 0) ∧
    keyAverageBrightness r c =
      averageBrightness
        (r.drawText
          (r.drawText
            (r.drawText (GrayImage.new w.toNat (3 * h.toNat)) KEY_COLOR 0 0
              (String.mk (List.replicate 6 c)))
            KEY_COLOR 0 h (String.mk (List.replicate 6 c)))
          KEY_COLOR 0 (2 * h) (String.mk (List.replicate 6 c))) := by
  have hrow : keyChunkRow c = String.mk (List.replicate 6 c) := rfl
  refine ⟨rfl, hrow, rfl, fun x y => rfl, ?_⟩
  have hwid : toU32 w = w.toNat := by rw [toU32]; omega
  have hhgt : toU32 h * KEY_REPETITION % 4294967296 = 3 * h.toNat := by
    rw [toU32, KEY_REPETITION]; omega
  have hrange : List.range KEY_REPETITION = [0, 1, 2] := rfl
  have e0 : i32wrap (((0 : Nat) : Int) * h) = 0 := by rw [i32wrap]; omega
  have e1 : i32wrap (((1 : Nat) : Int) * h) = h := by rw [i32wrap]; omega
  have e2 : i32wrap (((2 : Nat) : Int) * h) = 2 * h := by rw [i32wrap]; omega
  simp only [keyAverageBrightness, keyChunkImage]
  rw [hrow, hts]
  simp only [hrange, List.foldl_cons, List.foldl_nil]
  rw [hwid, hhgt, e0, e1, e2]

/-- Witness for C2 at the trivial rasterizer (every tile measures 2 × 1)
and key a. -/
theorem key_tile_rasterization_structure_witness :
    keyAverageBrightness trivialRast 'a' =
      averageBrightness
        (trivialRast.drawText
          (trivialRast.drawText
            (trivialRast.drawText (GrayImage.new 2 3) KEY_COLOR 0 0
              (String.mk (List.replicate 6 'a')))
            KEY_COLOR 0 1 (String.mk (List.replicate 6 'a')))
          KEY_COLOR 0 2 (String.mk (List.replicate 6 'a'))) :=
  (key_tile_rasterization_structure trivialRast 'a' 2 1 rfl (by decide)
    (by decide) (by decide) (by decide)).2.2.2.2
